import Mathlib

/-! Shallow embedding of the order-execution core of `algotrade-pro-v2`:

* `app/services/risk_manager.py` — pre-trade risk validation and the
  kill-switch state machine (`RiskManager`);
* `app/services/paper_trader.py` — the simulated ledger (`PaperTrader`);
* the value objects of `app/services/broker_interface.py` that these two
  modules read.

Modelling conventions:

* Python `float` money amounts are modelled as exact rationals (`ℚ`);
  quantities keep their Python type `int` (`ℤ`).
* Python exceptions become an explicit `Except`-shaped result; where the
  source mutates state before raising (the REJECTED audit entry written
  just before an "insufficient funds / position" raise) the resulting
  state is returned alongside the error.
* The positions `dict[str, dict]` becomes an association list with
  Python-dict semantics (update in place, insert appends, delete removes
  the entry); keys are unique in every reachable state.
* Nondeterministic inputs of the source (the generated `uuid` order id,
  the wall-clock time read by the market-hours check) are passed in as
  explicit arguments.
* Fields that no modelled code path reads (exchange tags, timestamps,
  the human-readable interpolated message text) are either omitted or
  replaced by fixed strings; `check_name` and `status` strings are kept
  exactly as in the source.
-/

namespace AlgoTrade

/-- Embeds `OrderSide` from `app/constants.py`. -/
inductive OrderSide
  | BUY
  | SELL
deriving DecidableEq, Repr

/-- Embeds `OrderType` from `app/constants.py` (MARKET, LIMIT, SL, SL-M). -/
inductive OrderType
  | MARKET
  | LIMIT
  | SL
  | SLM
deriving DecidableEq, Repr

/-- Embeds `OrderRequest` from `app/services/broker_interface.py`.
Fields not read by the risk manager or the paper trader
(exchange, trigger_price, product) are omitted. -/
structure OrderRequest where
  symbol : String
  side : OrderSide
  order_type : OrderType
  quantity : ℤ
  price : ℚ
deriving DecidableEq, Repr

/-- Embeds `OrderResponse` from `app/services/broker_interface.py`
(the broker tag is constant `PAPER` here and the message text is
interpolated logging, both omitted). -/
structure OrderResponse where
  order_id : String
  status : String
deriving DecidableEq, Repr

/-- Embeds `Position` from `app/services/broker_interface.py`
(exchange/product tags omitted). -/
structure Position where
  symbol : String
  quantity : ℤ
  average_price : ℚ
  ltp : ℚ
  pnl : ℚ
deriving DecidableEq, Repr

/-- Embeds `Holding` from `app/services/broker_interface.py`. -/
structure Holding where
  symbol : String
  quantity : ℤ
  average_price : ℚ
  ltp : ℚ
  pnl : ℚ
deriving DecidableEq, Repr

/-- Embeds `RiskCheckResult` from `app/services/risk_manager.py`. -/
structure RiskCheckResult where
  allowed : Bool
  reason : String
  check_name : String
deriving DecidableEq, Repr

/-- The mutable state of `RiskManager.__init__`: the four limits plus
`_daily_pnl`, `_kill_switch_active`, `_daily_trades_count`. -/
structure RiskManager where
  max_order_value : ℚ
  max_daily_loss : ℚ
  max_positions : ℕ
  max_position_pct : ℚ
  daily_pnl : ℚ
  kill_switch_active : Bool
  daily_trades_count : ℕ
deriving DecidableEq, Repr

/-- The instant read by `RiskManager._check_market_hours` — the current
IST wall-clock time, passed in explicitly: day of week (Monday = 0,
per Python `weekday()`) and the time of day in minutes after midnight. -/
structure ISTTime where
  weekday : ℕ
  minuteOfDay : ℚ
deriving DecidableEq, Repr

namespace RiskManager

/-- Embeds `RiskManager._check_kill_switch`. -/
def check_kill_switch (rm : RiskManager) : RiskCheckResult :=
  if rm.kill_switch_active then
    ⟨false, "Kill switch is ACTIVE", "kill_switch"⟩
  else
    ⟨true, "OK", "kill_switch"⟩

/-- Embeds `RiskManager._check_order_value`. -/
def check_order_value (rm : RiskManager) (order : OrderRequest) : RiskCheckResult :=
  let order_value : ℚ := order.quantity * order.price
  if order_value > rm.max_order_value then
    ⟨false, "Order value exceeds maximum", "order_value"⟩
  else
    ⟨true, "OK", "order_value"⟩

/-- Embeds `RiskManager._check_daily_loss`. -/
def check_daily_loss (rm : RiskManager) : RiskCheckResult :=
  if rm.daily_pnl ≤ -rm.max_daily_loss then
    ⟨false, "Daily loss has reached limit", "daily_loss"⟩
  else
    ⟨true, "OK", "daily_loss"⟩

/-- Embeds `RiskManager._check_max_positions`. -/
def check_max_positions (rm : RiskManager) (order : OrderRequest)
    (current_positions : List Position) : RiskCheckResult :=
  if order.side ≠ OrderSide.BUY then
    ⟨true, "OK", "max_positions"⟩
  else if current_positions.any (fun p => p.symbol = order.symbol) then
    ⟨true, "OK", "max_positions"⟩
  else if current_positions.length ≥ rm.max_positions then
    ⟨false, "Too many open positions", "max_positions"⟩
  else
    ⟨true, "OK", "max_positions"⟩

/-- Embeds `RiskManager._check_concentration`. -/
def check_concentration (rm : RiskManager) (order : OrderRequest)
    (portfolio_value : ℚ) : RiskCheckResult :=
  if portfolio_value ≤ 0 then
    ⟨true, "OK", "concentration"⟩
  else
    let order_value : ℚ := order.quantity * order.price
    let concentration_pct := order_value / portfolio_value * 100
    if concentration_pct > rm.max_position_pct then
      ⟨false, "Order too large a fraction of portfolio", "concentration"⟩
    else
      ⟨true, "OK", "concentration"⟩

/-- Embeds `RiskManager._check_market_hours`: weekends rejected, otherwise the
time must lie in 9:15 (555 minutes) to 15:30 (930 minutes) IST inclusive. -/
def check_market_hours (now : ISTTime) : RiskCheckResult :=
  if now.weekday ≥ 5 then
    ⟨false, "Market is closed on weekends.", "market_hours"⟩
  else if ¬ (555 ≤ now.minuteOfDay ∧ now.minuteOfDay ≤ 930) then
    ⟨false, "Outside market hours", "market_hours"⟩
  else
    ⟨true, "OK", "market_hours"⟩

/-- Embeds `RiskManager.validate_order`: build the check list in its fixed order,
return the first failing result, else the allowed "all" result. -/
def validate_order (rm : RiskManager) (order : OrderRequest)
    (current_positions : List Position) (portfolio_value : ℚ)
    (now : ISTTime) : RiskCheckResult :=
  let checks := [
    rm.check_kill_switch,
    rm.check_order_value order,
    rm.check_daily_loss,
    rm.check_max_positions order current_positions,
    rm.check_concentration order portfolio_value,
    check_market_hours now]
  match checks.find? (fun r => !r.allowed) with
  | some r => r
  | none => ⟨true, "All safety checks passed", "all"⟩

/-- Embeds `RiskManager.record_trade_pnl`. -/
def record_trade_pnl (rm : RiskManager) (pnl : ℚ) : RiskManager :=
  let rm1 := { rm with
    daily_pnl := rm.daily_pnl + pnl,
    daily_trades_count := rm.daily_trades_count + 1 }
  if rm1.daily_pnl ≤ -rm1.max_daily_loss then
    { rm1 with kill_switch_active := true }
  else
    rm1

/-- Embeds `RiskManager.activate_kill_switch`. -/
def activate_kill_switch (rm : RiskManager) : RiskManager :=
  { rm with kill_switch_active := true }

/-- Embeds `RiskManager.deactivate_kill_switch`. -/
def deactivate_kill_switch (rm : RiskManager) : RiskManager :=
  { rm with kill_switch_active := false }

/-- Embeds `RiskManager.reset_daily_counters`. -/
def reset_daily_counters (rm : RiskManager) : RiskManager :=
  { rm with daily_pnl := 0, daily_trades_count := 0 }

end RiskManager

/-- The state-mutating operations exposed by `RiskManager`
(`validate_order` and `get_status` are read-only and mutate nothing). -/
inductive RiskOp
  | recordTradePnl (pnl : ℚ)
  | activateKillSwitch
  | deactivateKillSwitch
  | resetDailyCounters
deriving DecidableEq, Repr

/-- One `RiskManager` operation applied to the state. -/
def riskStep (rm : RiskManager) : RiskOp → RiskManager
  | .recordTradePnl pnl => rm.record_trade_pnl pnl
  | .activateKillSwitch => rm.activate_kill_switch
  | .deactivateKillSwitch => rm.deactivate_kill_switch
  | .resetDailyCounters => rm.reset_daily_counters

/-- The error kinds the paper trader raises
(`BrokerConnectionError` and the three distinct `RiskCheckFailedError`
raise sites of `place_order`). -/
inductive PaperError
  | brokerNotConnected
  | insufficientFunds
  | noPositionToSell
  | insufficientQuantity
deriving DecidableEq, Repr

/-- One value of the positions dict of `PaperTrader`:
`{"quantity", "average_price", "ltp", "unrealized_pnl", ...}`
(the exchange tag and the `bought_at` timestamp are omitted). -/
structure PaperPosition where
  quantity : ℤ
  average_price : ℚ
  ltp : ℚ
  unrealized_pnl : ℚ
deriving DecidableEq, Repr

/-- One `_trade_history` record appended by `PaperTrader._execute_sell`
(the `closed_at` timestamp is omitted). -/
structure TradeRecord where
  symbol : String
  side : OrderSide
  quantity : ℤ
  entry_price : ℚ
  exit_price : ℚ
  pnl : ℚ
  pnl_percent : ℚ
deriving DecidableEq, Repr

/-- One `_order_book` entry appended by `PaperTrader._record_order`
(the exchange tag and the timestamp are omitted). -/
structure OrderBookEntry where
  order_id : String
  symbol : String
  side : OrderSide
  order_type : OrderType
  quantity : ℤ
  price : ℚ
  status : String
deriving DecidableEq, Repr

/-- The state of a `PaperTrader` instance. The positions dict is an
association list with Python-dict semantics; `_real_broker` is the
constant `None` and is not represented. -/
structure PaperTrader where
  starting_capital : ℚ
  capital : ℚ
  positions : List (String × PaperPosition)
  trade_history : List TradeRecord
  order_book : List OrderBookEntry
  connected : Bool
deriving DecidableEq, Repr

/-- Embeds `PaperTrader.__init__(starting_capital)`. -/
def freshPaperTrader (starting_capital : ℚ) : PaperTrader :=
  ⟨starting_capital, starting_capital, [], [], [], false⟩

/-- Dict read `self._positions.get(symbol)`: the value stored under the
symbol, if present. -/
def lookupPos : List (String × PaperPosition) → String → Option PaperPosition
  | [], _ => none
  | (k, v) :: rest, sym => if k = sym then some v else lookupPos rest sym

/-- Dict write `self._positions[symbol] = v` for a key already present:
replace the entry in place. -/
def updatePos : List (String × PaperPosition) → String → PaperPosition →
    List (String × PaperPosition)
  | [], _, _ => []
  | (k, v) :: rest, sym, nv =>
      if k = sym then (k, nv) :: rest else (k, v) :: updatePos rest sym nv

/-- Dict delete `del self._positions[symbol]`. -/
def erasePos : List (String × PaperPosition) → String → List (String × PaperPosition)
  | [], _ => []
  | (k, v) :: rest, sym => if k = sym then rest else (k, v) :: erasePos rest sym

namespace PaperTrader

/-- Embeds `PaperTrader.total_pnl`: sum of `pnl` over `_trade_history`. -/
def total_pnl (s : PaperTrader) : ℚ :=
  (s.trade_history.map (fun t => t.pnl)).sum

/-- The position-value sum inside `PaperTrader.portfolio_value`. -/
def positionsValue (ps : List (String × PaperPosition)) : ℚ :=
  (ps.map (fun kv => (kv.2.quantity : ℚ) * kv.2.average_price)).sum

/-- Embeds `PaperTrader.portfolio_value`: cash plus open positions at average
price. -/
def portfolio_value (s : PaperTrader) : ℚ :=
  s.capital + positionsValue s.positions

/-- Embeds `PaperTrader.connect` (credentials ignored, always succeeds). -/
def connect (s : PaperTrader) : PaperTrader :=
  { s with connected := true }

/-- Embeds `PaperTrader.disconnect`. -/
def disconnect (s : PaperTrader) : PaperTrader :=
  { s with connected := false }

/-- Embeds `PaperTrader._record_order`: append one audit entry to `_order_book`. -/
def record_order (s : PaperTrader) (order : OrderRequest)
    (order_id : String) (status : String) (fill_price : ℚ) : PaperTrader :=
  { s with order_book := s.order_book ++
      [⟨order_id, order.symbol, order.side, order.order_type,
        order.quantity, fill_price, status⟩] }

/-- The fill-price rule of `PaperTrader.place_order`:
`order.price if order.price > 0 else 0.0`. -/
def fillPriceOf (order : OrderRequest) : ℚ :=
  if order.price > 0 then order.price else 0

/-- Embeds `PaperTrader._execute_buy`. On insufficient funds the REJECTED audit
entry is written and the error raised; otherwise cash is deducted and the
position merged by weighted-average cost (or created at the fill price). -/
def execute_buy (s : PaperTrader) (order : OrderRequest)
    (order_id : String) (fill_price : ℚ) :
    PaperTrader × Except PaperError OrderResponse :=
  let cost : ℚ := order.quantity * fill_price
  if cost > s.capital then
    (record_order s order order_id "REJECTED" fill_price,
     .error .insufficientFunds)
  else
    let s1 := { s with capital := s.capital - cost }
    let s2 :=
      match lookupPos s1.positions order.symbol with
      | some existing =>
          let total_qty := existing.quantity + order.quantity
          let total_cost := (existing.quantity : ℚ) * existing.average_price + cost
          let new_avg : ℚ := if total_qty > 0 then total_cost / (total_qty : ℚ) else 0
          let merged := { existing with quantity := total_qty, average_price := new_avg }
          { s1 with positions := updatePos s1.positions order.symbol merged }
      | none =>
          { s1 with positions := s1.positions ++
              [(order.symbol, ⟨order.quantity, fill_price, fill_price, 0⟩)] }
    (record_order s2 order order_id "FILLED" fill_price,
     .ok ⟨order_id, "PAPER_FILLED"⟩)

/-- Embeds `PaperTrader._execute_sell`. Rejects (after writing the REJECTED audit
entry) when the symbol is absent or over-sold; otherwise credits cash,
decrements or deletes the position, and appends the trade record. -/
def execute_sell (s : PaperTrader) (order : OrderRequest)
    (order_id : String) (fill_price : ℚ) :
    PaperTrader × Except PaperError OrderResponse :=
  match lookupPos s.positions order.symbol with
  | none =>
      (record_order s order order_id "REJECTED" fill_price,
       .error .noPositionToSell)
  | some position =>
      if order.quantity > position.quantity then
        (record_order s order order_id "REJECTED" fill_price,
         .error .insufficientQuantity)
      else
        let pnl : ℚ := (fill_price - position.average_price) * order.quantity
        let s1 := { s with capital := s.capital + order.quantity * fill_price }
        let newQty := position.quantity - order.quantity
        let reduced := { position with quantity := newQty }
        let s2 :=
          if newQty = 0 then
            { s1 with positions := erasePos s1.positions order.symbol }
          else
            { s1 with positions := updatePos s1.positions order.symbol reduced }
        let pnl_percent : ℚ :=
          if position.average_price > 0 then
            pnl / (position.average_price * order.quantity) * 100
          else 0
        let s3 := { s2 with trade_history := s2.trade_history ++
            [⟨order.symbol, OrderSide.SELL, order.quantity,
              position.average_price, fill_price, pnl, pnl_percent⟩] }
        (record_order s3 order order_id "FILLED" fill_price,
         .ok ⟨order_id, "PAPER_FILLED"⟩)

/-- Embeds `PaperTrader.place_order` with the generated order id passed in.
`_ensure_connected` raises before any state change; then the order is
dispatched by side at the computed fill price. -/
def place_order (s : PaperTrader) (order : OrderRequest) (order_id : String) :
    PaperTrader × Except PaperError OrderResponse :=
  if ¬ s.connected then
    (s, .error .brokerNotConnected)
  else
    let fill_price := fillPriceOf order
    match order.side with
    | .BUY => execute_buy s order order_id fill_price
    | .SELL => execute_sell s order order_id fill_price

/-- The order-book scan of `PaperTrader.cancel_order`: mark the first
entry with this id still in status PLACED as CANCELLED; `none` when no
such entry exists. -/
def cancelInBook : List OrderBookEntry → String → Option (List OrderBookEntry)
  | [], _ => none
  | e :: rest, oid =>
      if e.order_id = oid ∧ e.status = "PLACED" then
        some ({ e with status := "CANCELLED" } :: rest)
      else
        (cancelInBook rest oid).map (fun book => e :: book)

/-- Embeds `PaperTrader.cancel_order`. -/
def cancel_order (s : PaperTrader) (order_id : String) :
    PaperTrader × OrderResponse :=
  match cancelInBook s.order_book order_id with
  | some book => ({ s with order_book := book }, ⟨order_id, "CANCELLED"⟩)
  | none => (s, ⟨order_id, "NOT_FOUND"⟩)

/-- Embeds `PaperTrader.get_positions`: requires connected state, then projects
the positions dict. -/
def get_positions (s : PaperTrader) : Except PaperError (List Position) :=
  if ¬ s.connected then .error .brokerNotConnected
  else .ok (s.positions.map (fun kv =>
    ⟨kv.1, kv.2.quantity, kv.2.average_price, kv.2.ltp, kv.2.unrealized_pnl⟩))

/-- Embeds `PaperTrader.get_holdings`: requires connected state, then projects
the positions dict. -/
def get_holdings (s : PaperTrader) : Except PaperError (List Holding) :=
  if ¬ s.connected then .error .brokerNotConnected
  else .ok (s.positions.map (fun kv =>
    ⟨kv.1, kv.2.quantity, kv.2.average_price, kv.2.ltp, kv.2.unrealized_pnl⟩))

/-- Embeds `PaperTrader.get_ltp`: NO connection check in the source — returns the
stored last price when the symbol is held, else `0.0`. -/
def get_ltp (s : PaperTrader) (symbol : String) : ℚ :=
  match lookupPos s.positions symbol with
  | some pos => pos.ltp
  | none => 0

/-- Embeds `PaperTrader.get_historical`: NO connection check in the source —
always returns an empty candle frame (modelled as the empty list of rows). -/
def get_historical (_s : PaperTrader) : List (ℚ × ℚ × ℚ × ℚ × ℚ) :=
  []

/-- Embeds `PaperTrader.get_order_book`: NO connection check in the source —
returns the order book as is. -/
def get_order_book (s : PaperTrader) : List OrderBookEntry :=
  s.order_book

/-- Embeds `PaperTrader.reset`. -/
def reset (s : PaperTrader) : PaperTrader :=
  { s with
    capital := s.starting_capital,
    positions := [],
    trade_history := [],
    order_book := [] }

/-- The dict returned by `PaperTrader.get_summary`. -/
structure Summary where
  starting_capital : ℚ
  current_capital : ℚ
  portfolio_value : ℚ
  total_pnl : ℚ
  total_pnl_percent : ℚ
  open_positions : ℕ
  total_trades : ℕ
  is_connected : Bool
deriving DecidableEq, Repr

/-- Embeds `PaperTrader.get_summary`. -/
def get_summary (s : PaperTrader) : Summary :=
  ⟨s.starting_capital, s.capital, portfolio_value s, total_pnl s,
   (if s.starting_capital ≠ 0 then total_pnl s / s.starting_capital * 100 else 0),
   s.positions.length, s.trade_history.length, s.connected⟩

end PaperTrader

/-- The ledger operations quantified over by the conservation claim:
connect, place_order (with its generated id), cancel_order. -/
inductive LedgerOp
  | connectOp
  | placeOp (order : OrderRequest) (order_id : String)
  | cancelOp (order_id : String)
deriving DecidableEq, Repr

/-- One ledger operation applied to the state (the response is dropped;
a raising `place_order` still leaves its REJECTED audit entry). -/
def ledgerStep (s : PaperTrader) : LedgerOp → PaperTrader
  | .connectOp => s.connect
  | .placeOp o oid => (s.place_order o oid).1
  | .cancelOp oid => (s.cancel_order oid).1

/-- A sequence of ledger operations applied in order. -/
def runOps (s : PaperTrader) (ops : List LedgerOp) : PaperTrader :=
  ops.foldl ledgerStep s

/-- The spec's own description of the validation pipeline (§4.2): the six
checks applied in the listed fixed order, short-circuiting on the first
failure; when all pass, an allowed result with check_name "all". Stated
separately so `validate_order` can be proved to refine it. -/
def validate_order_spec (rm : RiskManager) (order : OrderRequest)
    (current_positions : List Position) (portfolio_value : ℚ)
    (now : ISTTime) : RiskCheckResult :=
  let c1 := rm.check_kill_switch
  if ¬ c1.allowed then c1 else
  let c2 := rm.check_order_value order
  if ¬ c2.allowed then c2 else
  let c3 := rm.check_daily_loss
  if ¬ c3.allowed then c3 else
  let c4 := rm.check_max_positions order current_positions
  if ¬ c4.allowed then c4 else
  let c5 := rm.check_concentration order portfolio_value
  if ¬ c5.allowed then c5 else
  let c6 := RiskManager.check_market_hours now
  if ¬ c6.allowed then c6 else
  ⟨true, "All safety checks passed", "all"⟩

/-- A BUY `OrderRequest` on one symbol built from a (quantity, price)
fill. -/
def buyFill (sym : String) (f : ℤ × ℚ) : OrderRequest :=
  ⟨sym, .BUY, .LIMIT, f.1, f.2⟩

/-- A sequence of BUY fills on one symbol executed through `place_order`
(the generated order ids are irrelevant to the ledger arithmetic). -/
def runBuys (sym : String) : PaperTrader → List (ℤ × ℚ) → PaperTrader
  | s, [] => s
  | s, f :: rest => runBuys sym (s.place_order (buyFill sym f) "").1 rest

/-- Every BUY of the fill sequence is accepted: at each step the cost
does not exceed the cash available at that point. -/
def buysAccepted (sym : String) : PaperTrader → List (ℤ × ℚ) → Prop
  | _, [] => True
  | s, f :: rest =>
      (f.1 : ℚ) * PaperTrader.fillPriceOf (buyFill sym f) ≤ s.capital ∧
      buysAccepted sym (s.place_order (buyFill sym f) "").1 rest

/-! Concrete sample inputs used by the witness theorems. -/

/-- A risk manager with all limits set and the kill switch off. -/
def sampleRM : RiskManager := ⟨1000000, 50000, 10, 20, 0, false, 0⟩

/-- A risk manager whose kill switch is active. -/
def sampleRMActive : RiskManager := ⟨1000000, 50000, 10, 20, 0, true, 0⟩

/-- A small sample order. -/
def sampleOrder : OrderRequest := ⟨"RELIANCE-EQ", .BUY, .LIMIT, 1, 100⟩

/-- A weekday instant inside market hours (Monday 10:00 IST). -/
def sampleTime : ISTTime := ⟨0, 600⟩

/-! Theorems about the embedded code. -/

/-- Appending a binding for a key absent from the positions dict makes it
retrievable. -/
theorem lookupPos_append_fresh (sym : String) (v : PaperPosition) :
    ∀ ps : List (String × PaperPosition),
      lookupPos ps sym = none →
      lookupPos (ps ++ [(sym, v)]) sym = some v := by
  intro ps
  induction ps with
  | nil => intro _; simp [lookupPos]
  | cons kv rest ih =>
      intro h
      obtain ⟨k, w⟩ := kv
      by_cases hk : k = sym
      · simp [lookupPos, hk] at h
      · simp only [List.cons_append, lookupPos, if_neg hk] at h ⊢
        exact ih h

/-- Updating a key present in the positions dict stores the new value. -/
theorem lookupPos_updatePos_self (sym : String) (v : PaperPosition) :
    ∀ (ps : List (String × PaperPosition)) (ex : PaperPosition),
      lookupPos ps sym = some ex →
      lookupPos (updatePos ps sym v) sym = some v := by
  intro ps
  induction ps with
  | nil => intro ex h; simp [lookupPos] at h
  | cons kv rest ih =>
      intro ex h
      obtain ⟨k, w⟩ := kv
      by_cases hk : k = sym
      · simp [updatePos, lookupPos, hk]
      · simp only [updatePos, lookupPos, if_neg hk] at h ⊢
        exact ih ex h

/-- Claim C1: the kill switch is a one-way latch. A `record_trade_pnl`
call that brings `daily_pnl` to at most `-max_daily_loss` sets
`kill_switch_active`; while it is set, every `validate_order` call, for
any order, positions list, portfolio value and clock instant, is rejected
with check_name "kill_switch"; no `RiskManager` operation other than
`deactivate_kill_switch` ever clears the flag, and
`deactivate_kill_switch` does clear it. -/
theorem kill_switch_one_way_latch :
    (∀ (rm : RiskManager) (pnl : ℚ),
      rm.daily_pnl + pnl ≤ -rm.max_daily_loss →
      (rm.record_trade_pnl pnl).kill_switch_active = true) ∧
    (∀ (rm : RiskManager) (order : OrderRequest) (ps : List Position)
        (pv : ℚ) (now : ISTTime),
      rm.kill_switch_active = true →
      (rm.validate_order order ps pv now).allowed = false ∧
      (rm.validate_order order ps pv now).check_name = "kill_switch") ∧
    (∀ (rm : RiskManager) (op : RiskOp),
      rm.kill_switch_active = true →
      op ≠ RiskOp.deactivateKillSwitch →
      (riskStep rm op).kill_switch_active = true) ∧
    (∀ rm : RiskManager, rm.deactivate_kill_switch.kill_switch_active = false) := by
  refine ⟨?_, ?_, ?_, ?_⟩
  · intro rm pnl h
    simp only [RiskManager.record_trade_pnl]
    split
    · rfl
    · rename_i hc
      exact absurd h hc
  · intro rm order ps pv now h
    simp [RiskManager.validate_order, RiskManager.check_kill_switch, h, List.find?]
  · intro rm op h hne
    cases op with
    | recordTradePnl pnl =>
        simp only [riskStep, RiskManager.record_trade_pnl]
        split
        · rfl
        · exact h
    | activateKillSwitch => simp [riskStep, RiskManager.activate_kill_switch]
    | deactivateKillSwitch => exact absurd rfl hne
    | resetDailyCounters => simpa [riskStep, RiskManager.reset_daily_counters] using h
  · intro rm
    simp [RiskManager.deactivate_kill_switch]

/-- Witness for C1 at concrete inputs: a trade of −60000 against a fresh
manager with limit 50000 trips the switch; with the switch active,
validation of a sample order fails with check_name "kill_switch"; a
profitable trade does not clear the switch; deactivation does. -/
theorem kill_switch_one_way_latch_witness :
    (sampleRM.record_trade_pnl (-60000)).kill_switch_active = true ∧
    (sampleRMActive.validate_order sampleOrder [] 0 sampleTime).allowed = false ∧
    (sampleRMActive.validate_order sampleOrder [] 0 sampleTime).check_name = "kill_switch" ∧
    (riskStep sampleRMActive (RiskOp.recordTradePnl 500)).kill_switch_active = true ∧
    sampleRMActive.deactivate_kill_switch.kill_switch_active = false := by
  refine ⟨?_, ?_, ?_, ?_, ?_⟩
  · exact kill_switch_one_way_latch.1 sampleRM (-60000) (by norm_num [sampleRM])
  · exact (kill_switch_one_way_latch.2.1 sampleRMActive sampleOrder [] 0 sampleTime
      (by norm_num [sampleRMActive])).1
  · exact (kill_switch_one_way_latch.2.1 sampleRMActive sampleOrder [] 0 sampleTime
      (by norm_num [sampleRMActive])).2
  · exact kill_switch_one_way_latch.2.2.1 sampleRMActive (RiskOp.recordTradePnl 500)
      (by norm_num [sampleRMActive]) (by simp)
  · exact kill_switch_one_way_latch.2.2.2 sampleRMActive

/-- Claim C5: `validate_order` runs its checks in the fixed order
kill_switch, order_value, daily_loss, max_positions, concentration,
market_hours, returning the result of the first failing check, and the
allowed "all" result when every check passes — it coincides with the
short-circuit pipeline `validate_order_spec` written from the spec. -/
theorem validate_order_first_failing_check :
    ∀ (rm : RiskManager) (order : OrderRequest) (ps : List Position)
      (pv : ℚ) (now : ISTTime),
      rm.validate_order order ps pv now = validate_order_spec rm order ps pv now := by
  intro rm order ps pv now
  simp only [RiskManager.validate_order, validate_order_spec]
  cases h1 : rm.check_kill_switch.allowed <;>
    cases h2 : (rm.check_order_value order).allowed <;>
      cases h3 : rm.check_daily_loss.allowed <;>
        cases h4 : (rm.check_max_positions order ps).allowed <;>
          cases h5 : (rm.check_concentration order pv).allowed <;>
            cases h6 : (RiskManager.check_market_hours now).allowed <;>
              simp [List.find?, h1, h2, h3, h4, h5, h6]

/-- Claim C7: the concentration check passes whenever portfolio_value ≤ 0;
for positive portfolio_value it rejects exactly when
(quantity × price / portfolio_value) × 100 exceeds max_position_pct; at
portfolio_value 100000 with max_position_pct 20 an order worth 25000 is
rejected by this check and an order worth 19999 passes it. -/
theorem concentration_check_characterization :
    (∀ (rm : RiskManager) (order : OrderRequest) (pv : ℚ),
      pv ≤ 0 → (rm.check_concentration order pv).allowed = true) ∧
    (∀ (rm : RiskManager) (order : OrderRequest) (pv : ℚ), 0 < pv →
      ((rm.check_concentration order pv).allowed = false ↔
        (order.quantity : ℚ) * order.price / pv * 100 > rm.max_position_pct)) ∧
    (sampleRM.check_concentration ⟨"X", .BUY, .LIMIT, 1, 25000⟩ 100000).allowed = false ∧
    (sampleRM.check_concentration ⟨"X", .BUY, .LIMIT, 1, 19999⟩ 100000).allowed = true := by
  refine ⟨?_, ?_, ?_, ?_⟩
  · intro rm order pv h
    simp [RiskManager.check_concentration, h]
  · intro rm order pv h
    simp only [RiskManager.check_concentration, if_neg (not_le.mpr h)]
    split_ifs with hc
    · simpa using hc
    · simpa using hc
  · norm_num [RiskManager.check_concentration, sampleRM]
  · norm_num [RiskManager.check_concentration, sampleRM]

/-- Witness for C7 at concrete inputs: with a non-positive portfolio value
the check passes, and with portfolio value 100000 and limit 20 an order
worth 30000 is rejected (30 percent exceeds 20). -/
theorem concentration_check_characterization_witness :
    (sampleRM.check_concentration sampleOrder 0).allowed = true ∧
    ((sampleRM.check_concentration ⟨"X", .BUY, .LIMIT, 1, 30000⟩ 100000).allowed = false ↔
      ((1 : ℤ) : ℚ) * (30000 : ℚ) / (100000 : ℚ) * 100 > sampleRM.max_position_pct) := by
  constructor
  · exact concentration_check_characterization.1 sampleRM sampleOrder 0 (by norm_num)
  · exact concentration_check_characterization.2.1 sampleRM
      ⟨"X", .BUY, .LIMIT, 1, 30000⟩ 100000 (by norm_num)

/-- Claim C2: on a connected ledger, a BUY whose cost
quantity × fill_price strictly exceeds the available cash fails with the
insufficient-funds error, leaves cash, positions and trade history exactly
unchanged, and appends exactly one REJECTED entry to the order book. -/
theorem buy_insufficient_funds_atomic_reject :
    ∀ (s : PaperTrader) (order : OrderRequest) (oid : String),
      s.connected = true →
      order.side = OrderSide.BUY →
      (order.quantity : ℚ) * PaperTrader.fillPriceOf order > s.capital →
      (s.place_order order oid).2 = Except.error PaperError.insufficientFunds ∧
      (s.place_order order oid).1.capital = s.capital ∧
      (s.place_order order oid).1.positions = s.positions ∧
      (s.place_order order oid).1.trade_history = s.trade_history ∧
      (s.place_order order oid).1.order_book = s.order_book ++
        [⟨oid, order.symbol, order.side, order.order_type, order.quantity,
          PaperTrader.fillPriceOf order, "REJECTED"⟩] := by
  intro s order oid hconn hside hcost
  rcases order with ⟨sym, side, otype, qty, price⟩
  cases hside
  simp only [PaperTrader.place_order, hconn, Bool.not_true, not_false_eq_true,
    ite_false, if_neg, PaperTrader.execute_buy, if_pos hcost,
    PaperTrader.record_order]
  simp

/-- Witness for C2: a connected fresh ledger with capital 100000 rejects a
BUY of 50 units at 2500 (cost 125000), leaving the state unchanged apart
from the single REJECTED audit entry. -/
theorem buy_insufficient_funds_atomic_reject_witness :
    ((freshPaperTrader 100000).connect.place_order
        ⟨"X", .BUY, .LIMIT, 50, 2500⟩ "PAPER-W2").2 =
      Except.error PaperError.insufficientFunds ∧
    ((freshPaperTrader 100000).connect.place_order
        ⟨"X", .BUY, .LIMIT, 50, 2500⟩ "PAPER-W2").1.capital =
      ((freshPaperTrader 100000).connect).capital := by
  have h := buy_insufficient_funds_atomic_reject
    ((freshPaperTrader 100000).connect) ⟨"X", .BUY, .LIMIT, 50, 2500⟩ "PAPER-W2"
    (by norm_num [freshPaperTrader, PaperTrader.connect])
    rfl
    (by norm_num [freshPaperTrader, PaperTrader.connect, PaperTrader.fillPriceOf])
  exact ⟨h.1, h.2.1⟩

/-- Claim C3: on a connected ledger, a SELL of a symbol that is not held,
or of more than the held quantity, fails with one of the two
insufficient-position errors, leaves cash, positions and trade history
exactly unchanged, and appends exactly one REJECTED order-book entry. -/
theorem sell_insufficient_position_atomic_reject :
    ∀ (s : PaperTrader) (order : OrderRequest) (oid : String),
      s.connected = true →
      order.side = OrderSide.SELL →
      (lookupPos s.positions order.symbol = none ∨
        ∃ p, lookupPos s.positions order.symbol = some p ∧
          order.quantity > p.quantity) →
      (∃ e, (s.place_order order oid).2 = Except.error e ∧
        (e = PaperError.noPositionToSell ∨ e = PaperError.insufficientQuantity)) ∧
      (s.place_order order oid).1.capital = s.capital ∧
      (s.place_order order oid).1.positions = s.positions ∧
      (s.place_order order oid).1.trade_history = s.trade_history ∧
      (s.place_order order oid).1.order_book = s.order_book ++
        [⟨oid, order.symbol, order.side, order.order_type, order.quantity,
          PaperTrader.fillPriceOf order, "REJECTED"⟩] := by
  intro s order oid hconn hside hbad
  rcases order with ⟨sym, side, otype, qty, price⟩
  cases hside
  simp only [PaperTrader.place_order, hconn, Bool.not_true, not_false_eq_true,
    ite_false, if_neg]
  rcases hbad with hnone | ⟨p, hsome, hover⟩
  · simp only [PaperTrader.execute_sell] at *
    rw [hnone]
    simp [PaperTrader.record_order]
  · simp only [PaperTrader.execute_sell] at *
    rw [hsome]
    simp only [if_pos hover]
    simp [PaperTrader.record_order]

/-- Witness for C3: a connected fresh ledger (no positions) rejects a SELL
of 1 unit of an unheld symbol with state unchanged. -/
theorem sell_insufficient_position_atomic_reject_witness :
    (∃ e, ((freshPaperTrader 100000).connect.place_order
        ⟨"X", .SELL, .LIMIT, 1, 2500⟩ "PAPER-W3").2 = Except.error e ∧
      (e = PaperError.noPositionToSell ∨ e = PaperError.insufficientQuantity)) ∧
    ((freshPaperTrader 100000).connect.place_order
        ⟨"X", .SELL, .LIMIT, 1, 2500⟩ "PAPER-W3").1.positions = [] := by
  have h := sell_insufficient_position_atomic_reject
    ((freshPaperTrader 100000).connect) ⟨"X", .SELL, .LIMIT, 1, 2500⟩ "PAPER-W3"
    (by norm_num [freshPaperTrader, PaperTrader.connect])
    rfl
    (Or.inl (by norm_num [freshPaperTrader, PaperTrader.connect, lookupPos]))
  exact ⟨h.1, h.2.2.1.trans (by norm_num [freshPaperTrader, PaperTrader.connect])⟩

/-- Claim C6: the end-to-end scenario. From a fresh connected ledger with
starting capital 100000: an accepted BUY of 5 units of X at 2500 leaves
cash 87500 and position quantity 5 at average price 2500; the subsequent
accepted SELL of 5 units at 2700 records realized pnl 1000, leaves cash
101000, removes the position entry, makes total_pnl 1000, and
`get_summary` reports current_capital 101000. -/
theorem paper_end_to_end_scenario :
    ((freshPaperTrader 100000).connect.place_order
        ⟨"X", .BUY, .LIMIT, 5, 2500⟩ "PAPER-1").1.capital = 87500 ∧
    lookupPos ((freshPaperTrader 100000).connect.place_order
        ⟨"X", .BUY, .LIMIT, 5, 2500⟩ "PAPER-1").1.positions "X" =
      some ⟨5, 2500, 2500, 0⟩ ∧
    ((((freshPaperTrader 100000).connect.place_order
        ⟨"X", .BUY, .LIMIT, 5, 2500⟩ "PAPER-1").1.place_order
        ⟨"X", .SELL, .LIMIT, 5, 2700⟩ "PAPER-2").1.trade_history.map
          (fun t => t.pnl)) = [1000] ∧
    (((freshPaperTrader 100000).connect.place_order
        ⟨"X", .BUY, .LIMIT, 5, 2500⟩ "PAPER-1").1.place_order
        ⟨"X", .SELL, .LIMIT, 5, 2700⟩ "PAPER-2").1.capital = 101000 ∧
    lookupPos (((freshPaperTrader 100000).connect.place_order
        ⟨"X", .BUY, .LIMIT, 5, 2500⟩ "PAPER-1").1.place_order
        ⟨"X", .SELL, .LIMIT, 5, 2700⟩ "PAPER-2").1.positions "X" = none ∧
    PaperTrader.total_pnl (((freshPaperTrader 100000).connect.place_order
        ⟨"X", .BUY, .LIMIT, 5, 2500⟩ "PAPER-1").1.place_order
        ⟨"X", .SELL, .LIMIT, 5, 2700⟩ "PAPER-2").1 = 1000 ∧
    (PaperTrader.get_summary (((freshPaperTrader 100000).connect.place_order
        ⟨"X", .BUY, .LIMIT, 5, 2500⟩ "PAPER-1").1.place_order
        ⟨"X", .SELL, .LIMIT, 5, 2700⟩ "PAPER-2").1).current_capital = 101000 := by
  norm_num [PaperTrader.place_order, PaperTrader.execute_buy,
    PaperTrader.execute_sell, PaperTrader.record_order, PaperTrader.connect,
    freshPaperTrader, PaperTrader.fillPriceOf, lookupPos, updatePos, erasePos,
    PaperTrader.total_pnl, PaperTrader.get_summary, PaperTrader.portfolio_value,
    PaperTrader.positionsValue]

/-- Claim C10: on a connected ledger with non-negative cash, a BUY with
price 0 (an unresolved market order) and positive quantity succeeds: the
fill price is 0, cash is unchanged, the position gains the full quantity
(average price 0 when the symbol was new, and a weighted average pulled
toward 0 — not above the old average — when it existed with non-negative
quantity and average), and one FILLED order-book entry is appended. -/
theorem zero_price_buy_fills_at_zero :
    ∀ (s : PaperTrader) (order : OrderRequest) (oid : String),
      s.connected = true →
      0 ≤ s.capital →
      order.side = OrderSide.BUY →
      order.price = 0 →
      0 < order.quantity →
      (s.place_order order oid).2 = Except.ok ⟨oid, "PAPER_FILLED"⟩ ∧
      (s.place_order order oid).1.capital = s.capital ∧
      (s.place_order order oid).1.order_book = s.order_book ++
        [⟨oid, order.symbol, order.side, order.order_type, order.quantity,
          0, "FILLED"⟩] ∧
      (∃ p, lookupPos (s.place_order order oid).1.positions order.symbol = some p ∧
        p.quantity = (match lookupPos s.positions order.symbol with
          | some ex => ex.quantity
          | none => 0) + order.quantity ∧
        (lookupPos s.positions order.symbol = none → p.average_price = 0) ∧
        (∀ ex, lookupPos s.positions order.symbol = some ex →
          0 ≤ ex.quantity → 0 ≤ ex.average_price →
          p.average_price ≤ ex.average_price)) := by
  intro s order oid hconn hcap hside hprice hqty
  rcases order with ⟨sym, side, otype, qty, price⟩
  cases hside
  simp only at hprice hqty
  subst hprice
  have hfill : PaperTrader.fillPriceOf ⟨sym, .BUY, otype, qty, 0⟩ = 0 := by
    simp [PaperTrader.fillPriceOf]
  have hcost : ((qty : ℚ) * (0 : ℚ) > s.capital) = False := by
    simp only [mul_zero, gt_iff_lt, eq_iff_iff, iff_false, not_lt]
    exact hcap
  simp only [PaperTrader.place_order, hconn, Bool.not_true, not_false_eq_true,
    ite_false, if_neg, hfill, PaperTrader.execute_buy, mul_zero, gt_iff_lt,
    not_lt.mpr hcap, if_neg, if_false, PaperTrader.record_order]
  rcases hlk : lookupPos s.positions sym with _ | ex
  · simp only [hlk]
    refine ⟨by simp, by norm_num, by simp, ?_⟩
    refine ⟨⟨qty, 0, 0, 0⟩, ?_, by simp, by simp, by simp⟩
    simpa using lookupPos_append_fresh sym ⟨qty, 0, 0, 0⟩ s.positions hlk
  · simp only [hlk]
    refine ⟨by simp, by norm_num, by simp, ?_⟩
    refine ⟨_, lookupPos_updatePos_self sym _ s.positions ex hlk, by simp, ?_, ?_⟩
    · intro hcontra
      simp at hcontra
    · intro ex2 hex2 hq2 ha2
      injection hex2 with hex2
      subst hex2
      simp only
      split
      · rename_i hpos
        have hposq : (0 : ℚ) < ((ex.quantity + qty : ℤ) : ℚ) := by
          exact_mod_cast hpos
        rw [div_le_iff₀ hposq]
        push_cast
        have hq : (0 : ℚ) ≤ (qty : ℚ) := by positivity
        have hq2q : (0 : ℚ) ≤ (ex.quantity : ℚ) := by exact_mod_cast hq2
        nlinarith [hq2q, ha2, hq]
      · exact ha2

/-- Witness for C10: a connected fresh ledger accepts a BUY of 7 units of
Y at price 0, leaving cash at 100000 with the position carried at average
price 0. -/
theorem zero_price_buy_fills_at_zero_witness :
    (((freshPaperTrader 100000).connect.place_order
        ⟨"Y", .BUY, .MARKET, 7, 0⟩ "PAPER-W10").2 =
      Except.ok ⟨"PAPER-W10", "PAPER_FILLED"⟩) ∧
    ((freshPaperTrader 100000).connect.place_order
        ⟨"Y", .BUY, .MARKET, 7, 0⟩ "PAPER-W10").1.capital = 100000 := by
  have h := zero_price_buy_fills_at_zero ((freshPaperTrader 100000).connect)
    ⟨"Y", .BUY, .MARKET, 7, 0⟩ "PAPER-W10"
    (by norm_num [freshPaperTrader, PaperTrader.connect])
    (by norm_num [freshPaperTrader, PaperTrader.connect])
    rfl rfl (by norm_num)
  refine ⟨h.1, h.2.1.trans (by norm_num [freshPaperTrader, PaperTrader.connect])⟩

/-- Counterexample to C8 as stated: after a filled BUY followed by
`disconnect`, the ledger is not connected, yet `get_ltp` returns the
stored price 2500, `get_order_book` returns the one FILLED entry, and
`get_historical` returns its empty frame — none of the three fails with a
not-connected error (their source performs no connection check at all). -/
theorem gateway_reads_not_connected_counterexample :
    (((freshPaperTrader 100000).connect.place_order
        ⟨"X", .BUY, .LIMIT, 5, 2500⟩ "PAPER-1").1.disconnect).connected = false ∧
    PaperTrader.get_ltp
      (((freshPaperTrader 100000).connect.place_order
        ⟨"X", .BUY, .LIMIT, 5, 2500⟩ "PAPER-1").1.disconnect) "X" = 2500 ∧
    PaperTrader.get_order_book
      (((freshPaperTrader 100000).connect.place_order
        ⟨"X", .BUY, .LIMIT, 5, 2500⟩ "PAPER-1").1.disconnect) =
      [⟨"PAPER-1", "X", .BUY, .LIMIT, 5, 2500, "FILLED"⟩] ∧
    PaperTrader.get_historical
      (((freshPaperTrader 100000).connect.place_order
        ⟨"X", .BUY, .LIMIT, 5, 2500⟩ "PAPER-1").1.disconnect) = [] := by
  norm_num [PaperTrader.place_order, PaperTrader.execute_buy,
    PaperTrader.record_order, PaperTrader.connect, PaperTrader.disconnect,
    freshPaperTrader, PaperTrader.fillPriceOf, lookupPos,
    PaperTrader.get_ltp, PaperTrader.get_order_book, PaperTrader.get_historical]

/-- Claim C8 amended: on a disconnected simulated ledger, `get_positions`
and `get_holdings` fail fast with the not-connected error; `get_ltp`,
`get_historical` and `get_order_book` perform no connection check and
return their simulated data (held price or 0, the empty candle frame, the
order book) regardless of the connection state. -/
theorem gateway_reads_connection_check :
    ∀ s : PaperTrader, s.connected = false →
      PaperTrader.get_positions s = Except.error PaperError.brokerNotConnected ∧
      PaperTrader.get_holdings s = Except.error PaperError.brokerNotConnected ∧
      (∀ sym, PaperTrader.get_ltp s sym =
        (match lookupPos s.positions sym with
          | some p => p.ltp
          | none => 0)) ∧
      PaperTrader.get_historical s = [] ∧
      PaperTrader.get_order_book s = s.order_book := by
  intro s h
  refine ⟨?_, ?_, ?_, rfl, rfl⟩
  · simp [PaperTrader.get_positions, h]
  · simp [PaperTrader.get_holdings, h]
  · intro sym
    rfl

/-- Witness for amended C8: the fresh ledger starts disconnected, and
there `get_positions` and `get_holdings` both fail with the not-connected
error while `get_order_book` returns the (empty) book. -/
theorem gateway_reads_connection_check_witness :
    PaperTrader.get_positions (freshPaperTrader 100000) =
      Except.error PaperError.brokerNotConnected ∧
    PaperTrader.get_holdings (freshPaperTrader 100000) =
      Except.error PaperError.brokerNotConnected ∧
    PaperTrader.get_order_book (freshPaperTrader 100000) =
      (freshPaperTrader 100000).order_book := by
  have h := gateway_reads_connection_check (freshPaperTrader 100000)
    (by norm_num [freshPaperTrader])
  exact ⟨h.1, h.2.1, h.2.2.2.2⟩

/-- Casting the integer sum of fill quantities to ℚ equals the sum of the
cast quantities. -/
theorem sum_fst_cast (l : List (ℤ × ℚ)) :
    (((l.map (fun f => f.1)).sum : ℤ) : ℚ) = (l.map (fun f => (f.1 : ℚ))).sum := by
  induction l with
  | nil => simp
  | cons g gs ih => simp [List.map_cons, List.sum_cons, ih]

/-- The function `place_order` never changes the connection flag. -/
theorem place_order_connected :
    ∀ (s : PaperTrader) (o : OrderRequest) (oid : String),
      (s.place_order o oid).1.connected = s.connected := by
  intro s o oid
  rcases o with ⟨sym, side, otype, q, pr⟩
  simp only [PaperTrader.place_order]
  split
  · rfl
  · cases side
    · simp only [PaperTrader.execute_buy, PaperTrader.record_order]
      split
      · rfl
      · split <;> rfl
    · simp only [PaperTrader.execute_sell, PaperTrader.record_order]
      split
      · rfl
      · split
        · rfl
        · split <;> rfl

/-- An accepted BUY of a symbol with no existing position appends a fresh
entry carrying the fill price as its average price. -/
theorem place_order_buy_create_positions (s : PaperTrader) (sym : String)
    (otype : OrderType) (q : ℤ) (pr : ℚ) (oid : String)
    (hconn : s.connected = true)
    (hlk : lookupPos s.positions sym = none)
    (hacc : (q : ℚ) * PaperTrader.fillPriceOf ⟨sym, .BUY, otype, q, pr⟩ ≤ s.capital) :
    (s.place_order ⟨sym, .BUY, otype, q, pr⟩ oid).1.positions =
      s.positions ++ [(sym,
        ⟨q, PaperTrader.fillPriceOf ⟨sym, .BUY, otype, q, pr⟩,
         PaperTrader.fillPriceOf ⟨sym, .BUY, otype, q, pr⟩, 0⟩)] := by
  have hcost : ¬ ((q : ℚ) * PaperTrader.fillPriceOf ⟨sym, .BUY, otype, q, pr⟩ > s.capital) :=
    not_lt.mpr hacc
  simp only [PaperTrader.place_order, hconn, Bool.not_true, not_false_eq_true,
    ite_false, if_neg, PaperTrader.execute_buy, PaperTrader.record_order]
  simp only [if_neg hcost, hlk]
  simp

/-- An accepted BUY of a symbol already held merges into the position
with the weighted-average cost rule. -/
theorem place_order_buy_merge_positions (s : PaperTrader) (sym : String)
    (otype : OrderType) (q : ℤ) (pr : ℚ) (oid : String) (ex : PaperPosition)
    (hconn : s.connected = true)
    (hlk : lookupPos s.positions sym = some ex)
    (hacc : (q : ℚ) * PaperTrader.fillPriceOf ⟨sym, .BUY, otype, q, pr⟩ ≤ s.capital)
    (htq : 0 < ex.quantity + q) :
    (s.place_order ⟨sym, .BUY, otype, q, pr⟩ oid).1.positions =
      updatePos s.positions sym
        ⟨ex.quantity + q,
         ((ex.quantity : ℚ) * ex.average_price +
           (q : ℚ) * PaperTrader.fillPriceOf ⟨sym, .BUY, otype, q, pr⟩) /
           ((ex.quantity + q : ℤ) : ℚ),
         ex.ltp, ex.unrealized_pnl⟩ := by
  have hcost : ¬ ((q : ℚ) * PaperTrader.fillPriceOf ⟨sym, .BUY, otype, q, pr⟩ > s.capital) :=
    not_lt.mpr hacc
  simp only [PaperTrader.place_order, hconn, Bool.not_true, not_false_eq_true,
    ite_false, if_neg, PaperTrader.execute_buy, PaperTrader.record_order]
  simp only [if_neg hcost, hlk, if_pos htq]
  simp

/-- Running a fill sequence of accepted BUY merges starting from an
existing position accumulates the quantity and the cost basis
quantity × average_price additively. -/
theorem runBuys_accumulates (sym : String) :
    ∀ (fills : List (ℤ × ℚ)) (s : PaperTrader) (p0 : PaperPosition),
      s.connected = true →
      lookupPos s.positions sym = some p0 →
      0 < p0.quantity →
      (∀ f ∈ fills, 0 < f.1) →
      buysAccepted sym s fills →
      ∃ p, lookupPos (runBuys sym s fills).positions sym = some p ∧
        p.quantity = p0.quantity + (fills.map (fun f => f.1)).sum ∧
        (p.quantity : ℚ) * p.average_price =
          (p0.quantity : ℚ) * p0.average_price +
          (fills.map
            (fun f => (f.1 : ℚ) * PaperTrader.fillPriceOf (buyFill sym f))).sum := by
  intro fills
  induction fills with
  | nil =>
      intro s p0 hconn hlk hq0 _ _
      exact ⟨p0, by simpa [runBuys] using hlk, by simp, by simp⟩
  | cons f rest ih =>
      intro s p0 hconn hlk hq0 hqs hacc
      obtain ⟨q, pr⟩ := f
      obtain ⟨hacc1, hacc2⟩ := hacc
      have hqpos : 0 < q := hqs (q, pr) (List.mem_cons_self _ _)
      have htq : 0 < p0.quantity + q := by linarith
      have hacc1q : (q : ℚ) * PaperTrader.fillPriceOf ⟨sym, .BUY, .LIMIT, q, pr⟩ ≤
          s.capital := by simpa [buyFill] using hacc1
      have hmerge := place_order_buy_merge_positions s sym .LIMIT q pr "" p0
        hconn hlk hacc1q htq
      have hconn2 : (s.place_order (buyFill sym (q, pr)) "").1.connected = true := by
        rw [place_order_connected]
        exact hconn
      have hpos2 : lookupPos (s.place_order (buyFill sym (q, pr)) "").1.positions sym =
          some ⟨p0.quantity + q,
            ((p0.quantity : ℚ) * p0.average_price +
              (q : ℚ) * PaperTrader.fillPriceOf ⟨sym, .BUY, .LIMIT, q, pr⟩) /
              ((p0.quantity + q : ℤ) : ℚ),
            p0.ltp, p0.unrealized_pnl⟩ := by
        have : (s.place_order (buyFill sym (q, pr)) "").1.positions =
            (s.place_order ⟨sym, .BUY, .LIMIT, q, pr⟩ "").1.positions := rfl
        rw [this, hmerge]
        exact lookupPos_updatePos_self sym _ s.positions p0 hlk
      obtain ⟨p, hp, hpq, hpv⟩ := ih (s.place_order (buyFill sym (q, pr)) "").1
        _ hconn2 hpos2 (by simpa using htq)
        (fun g hg => hqs g (List.mem_cons_of_mem _ hg)) hacc2
      refine ⟨p, ?_, ?_, ?_⟩
      · simpa [runBuys] using hp
      · rw [hpq]
        simp only [List.map_cons, List.sum_cons]
        ring
      · rw [hpv]
        simp only [List.map_cons, List.sum_cons]
        have hne : ((p0.quantity + q : ℤ) : ℚ) ≠ 0 := by
          exact_mod_cast htq.ne.symm
        have hcast : ((p0.quantity + q : ℤ) : ℚ) = (p0.quantity : ℚ) + (q : ℚ) := by
          push_cast
          ring
        field_simp
        simp only [buyFill]
        ring

/-- Claim C4: starting from a connected ledger with no position in the
symbol, any non-empty sequence of accepted BUY fills with positive
quantities leaves the stored average_price equal to the cost-weighted
mean of the fill prices: (Σ qᵢ × fill_priceᵢ) / (Σ qᵢ). -/
theorem buy_sequence_weighted_average :
    ∀ (s : PaperTrader) (sym : String) (fills : List (ℤ × ℚ)),
      s.connected = true →
      lookupPos s.positions sym = none →
      fills ≠ [] →
      (∀ f ∈ fills, 0 < f.1) →
      buysAccepted sym s fills →
      ∃ p, lookupPos (runBuys sym s fills).positions sym = some p ∧
        (p.quantity : ℚ) = (fills.map (fun f => (f.1 : ℚ))).sum ∧
        p.average_price =
          (fills.map
            (fun f => (f.1 : ℚ) * PaperTrader.fillPriceOf (buyFill sym f))).sum /
          (fills.map (fun f => (f.1 : ℚ))).sum := by
  intro s sym fills hconn hlk hne hqs hacc
  rcases fills with _ | ⟨⟨q, pr⟩, rest⟩
  · exact absurd rfl hne
  obtain ⟨hacc1, hacc2⟩ := hacc
  have hqpos : 0 < q := hqs (q, pr) (List.mem_cons_self _ _)
  have hacc1q : (q : ℚ) * PaperTrader.fillPriceOf ⟨sym, .BUY, .LIMIT, q, pr⟩ ≤
      s.capital := by simpa [buyFill] using hacc1
  have hcreate := place_order_buy_create_positions s sym .LIMIT q pr "" hconn hlk hacc1q
  have hconn2 : (s.place_order (buyFill sym (q, pr)) "").1.connected = true := by
    rw [place_order_connected]
    exact hconn
  have hpos2 : lookupPos (s.place_order (buyFill sym (q, pr)) "").1.positions sym =
      some ⟨q, PaperTrader.fillPriceOf ⟨sym, .BUY, .LIMIT, q, pr⟩,
        PaperTrader.fillPriceOf ⟨sym, .BUY, .LIMIT, q, pr⟩, 0⟩ := by
    have : (s.place_order (buyFill sym (q, pr)) "").1.positions =
        (s.place_order ⟨sym, .BUY, .LIMIT, q, pr⟩ "").1.positions := rfl
    rw [this, hcreate]
    exact lookupPos_append_fresh sym _ s.positions hlk
  obtain ⟨p, hp, hpq, hpv⟩ := runBuys_accumulates sym rest
    (s.place_order (buyFill sym (q, pr)) "").1 _ hconn2 hpos2 hqpos
    (fun g hg => hqs g (List.mem_cons_of_mem _ hg)) hacc2
  have hqsum : (0 : ℚ) < (((q, pr) :: rest).map (fun f => (f.1 : ℚ))).sum := by
    have : ∀ l : List (ℤ × ℚ), (∀ f ∈ l, 0 < f.1) →
        (0 : ℚ) ≤ (l.map (fun f => (f.1 : ℚ))).sum := by
      intro l
      induction l with
      | nil => intro _; simp
      | cons g gs ihg =>
          intro hmem
          simp only [List.map_cons, List.sum_cons]
          have h1 : 0 < g.1 := hmem g (List.mem_cons_self _ _)
          have h2 := ihg (fun x hx => hmem x (List.mem_cons_of_mem _ hx))
          have h1q : (0 : ℚ) < (g.1 : ℚ) := by exact_mod_cast h1
          linarith
    simp only [List.map_cons, List.sum_cons]
    have h2 := this rest (fun x hx => hqs x (List.mem_cons_of_mem _ hx))
    have h1q : (0 : ℚ) < (q : ℚ) := by exact_mod_cast hqpos
    linarith
  have hqeq : (p.quantity : ℚ) = (((q, pr) :: rest).map (fun f => (f.1 : ℚ))).sum := by
    have hpq' : p.quantity = q + (rest.map (fun f => f.1)).sum := by simpa using hpq
    rw [hpq', Int.cast_add, sum_fst_cast]
    simp [List.map_cons, List.sum_cons]
  refine ⟨p, hp, hqeq, ?_⟩
  have hvsum : (p.quantity : ℚ) * p.average_price =
      (((q, pr) :: rest).map
        (fun f => (f.1 : ℚ) * PaperTrader.fillPriceOf (buyFill sym f))).sum := by
    rw [hpv]
    simp only [List.map_cons, List.sum_cons]
    have hfe : PaperTrader.fillPriceOf (buyFill sym (q, pr)) =
        PaperTrader.fillPriceOf ⟨sym, .BUY, .LIMIT, q, pr⟩ := rfl
    rw [hfe]
  have hq0 : (p.quantity : ℚ) ≠ 0 := by
    rw [hqeq]
    exact hqsum.ne.symm
  rw [eq_div_iff (by rw [← hqeq]; exact hq0)]
  rw [← hvsum, hqeq]
  ring

/-- Witness for C4: two accepted buys of X, 5 at 2500 then 5 at 3500, on
a connected fresh ledger end with quantity 10 at the cost-weighted mean
price 3000. -/
theorem buy_sequence_weighted_average_witness :
    ∃ p, lookupPos (runBuys "X" (freshPaperTrader 100000).connect
        [(5, 2500), (5, 3500)]).positions "X" = some p ∧
      (p.quantity : ℚ) =
        ([((5 : ℤ), (2500 : ℚ)), (5, 3500)].map (fun f => (f.1 : ℚ))).sum ∧
      p.average_price =
        ([((5 : ℤ), (2500 : ℚ)), (5, 3500)].map
          (fun f => (f.1 : ℚ) * PaperTrader.fillPriceOf (buyFill "X" f))).sum /
        ([((5 : ℤ), (2500 : ℚ)), (5, 3500)].map (fun f => (f.1 : ℚ))).sum := by
  apply buy_sequence_weighted_average (freshPaperTrader 100000).connect "X"
    [(5, 2500), (5, 3500)]
  · norm_num [freshPaperTrader, PaperTrader.connect]
  · norm_num [freshPaperTrader, PaperTrader.connect, lookupPos]
  · simp
  · intro f hf
    rcases List.mem_cons.mp hf with rfl | hf2
    · norm_num
    · rcases List.mem_cons.mp hf2 with rfl | hf3
      · norm_num
      · simp at hf3
  · refine ⟨?_, ?_, trivial⟩
    · norm_num [freshPaperTrader, PaperTrader.connect, buyFill, PaperTrader.fillPriceOf]
    · norm_num [buysAccepted, freshPaperTrader, PaperTrader.connect, buyFill,
        PaperTrader.fillPriceOf, PaperTrader.place_order, PaperTrader.execute_buy,
        PaperTrader.record_order, lookupPos]

/-- A key that looks up to a value is an entry of the positions dict. -/
theorem lookupPos_mem (sym : String) :
    ∀ (ps : List (String × PaperPosition)) (ex : PaperPosition),
      lookupPos ps sym = some ex → (sym, ex) ∈ ps := by
  intro ps
  induction ps with
  | nil => intro ex h; simp [lookupPos] at h
  | cons hd rest ih =>
      intro ex h
      obtain ⟨k, w⟩ := hd
      by_cases hk : k = sym
      · subst hk
        simp only [lookupPos, if_pos rfl] at h
        injection h with h
        subst h
        exact List.mem_cons_self _ _
      · simp only [lookupPos, if_neg hk] at h
        exact List.mem_cons_of_mem _ (ih ex h)

/-- Entries of the updated positions dict are old entries or the new
binding. -/
theorem mem_updatePos (sym : String) (v : PaperPosition) :
    ∀ (ps : List (String × PaperPosition)) (kv : String × PaperPosition),
      kv ∈ updatePos ps sym v → kv ∈ ps ∨ kv = (sym, v) := by
  intro ps
  induction ps with
  | nil => intro kv h; simp [updatePos] at h
  | cons hd rest ih =>
      intro kv h
      obtain ⟨k, w⟩ := hd
      by_cases hk : k = sym
      · subst hk
        simp only [updatePos, if_pos rfl] at h
        rcases List.mem_cons.mp h with rfl | h2
        · exact Or.inr rfl
        · exact Or.inl (List.mem_cons_of_mem _ h2)
      · simp only [updatePos, if_neg hk] at h
        rcases List.mem_cons.mp h with rfl | h2
        · exact Or.inl (List.mem_cons_self _ _)
        · rcases ih kv h2 with h3 | h3
          · exact Or.inl (List.mem_cons_of_mem _ h3)
          · exact Or.inr h3

/-- Entries of the erased positions dict are old entries. -/
theorem mem_erasePos (sym : String) :
    ∀ (ps : List (String × PaperPosition)) (kv : String × PaperPosition),
      kv ∈ erasePos ps sym → kv ∈ ps := by
  intro ps
  induction ps with
  | nil => intro kv h; simp [erasePos] at h
  | cons hd rest ih =>
      intro kv h
      obtain ⟨k, w⟩ := hd
      by_cases hk : k = sym
      · subst hk
        simp only [erasePos, if_pos rfl] at h
        exact List.mem_cons_of_mem _ h
      · simp only [erasePos, if_neg hk] at h
        rcases List.mem_cons.mp h with rfl | h2
        · exact List.mem_cons_self _ _
        · exact List.mem_cons_of_mem _ (ih kv h2)

/-- Appending one binding adds its quantity × average_price to the
position-value sum. -/
theorem positionsValue_append (ps : List (String × PaperPosition))
    (x : String × PaperPosition) :
    PaperTrader.positionsValue (ps ++ [x]) =
      PaperTrader.positionsValue ps + (x.2.quantity : ℚ) * x.2.average_price := by
  simp [PaperTrader.positionsValue]

/-- Updating a present key swaps its quantity × average_price contribution
for that of the new value. -/
theorem positionsValue_updatePos (sym : String) (v : PaperPosition) :
    ∀ (ps : List (String × PaperPosition)) (ex : PaperPosition),
      lookupPos ps sym = some ex →
      PaperTrader.positionsValue (updatePos ps sym v) =
        PaperTrader.positionsValue ps - (ex.quantity : ℚ) * ex.average_price +
          (v.quantity : ℚ) * v.average_price := by
  intro ps
  induction ps with
  | nil => intro ex h; simp [lookupPos] at h
  | cons hd rest ih =>
      intro ex h
      obtain ⟨k, w⟩ := hd
      by_cases hk : k = sym
      · simp only [lookupPos, if_pos hk] at h
        injection h with h
        subst h
        simp only [updatePos, if_pos hk, PaperTrader.positionsValue,
          List.map_cons, List.sum_cons]
        ring
      · simp only [lookupPos, if_neg hk] at h
        simp only [updatePos, if_neg hk, PaperTrader.positionsValue,
          List.map_cons, List.sum_cons]
        have hr := ih ex h
        simp only [PaperTrader.positionsValue] at hr
        rw [hr]
        ring

/-- Erasing a present key removes its quantity × average_price
contribution. -/
theorem positionsValue_erasePos (sym : String) :
    ∀ (ps : List (String × PaperPosition)) (ex : PaperPosition),
      lookupPos ps sym = some ex →
      PaperTrader.positionsValue (erasePos ps sym) =
        PaperTrader.positionsValue ps - (ex.quantity : ℚ) * ex.average_price := by
  intro ps
  induction ps with
  | nil => intro ex h; simp [lookupPos] at h
  | cons hd rest ih =>
      intro ex h
      obtain ⟨k, w⟩ := hd
      by_cases hk : k = sym
      · simp only [lookupPos, if_pos hk] at h
        injection h with h
        subst h
        simp only [erasePos, if_pos hk, PaperTrader.positionsValue,
          List.map_cons, List.sum_cons]
        ring
      · simp only [lookupPos, if_neg hk] at h
        simp only [erasePos, if_neg hk, PaperTrader.positionsValue,
          List.map_cons, List.sum_cons]
        have hr := ih ex h
        simp only [PaperTrader.positionsValue] at hr
        rw [hr]
        ring

/-- Calling `place_order` on a disconnected ledger: no state change,
not-connected error. -/
theorem place_order_not_connected_state (s : PaperTrader) (o : OrderRequest)
    (oid : String) (hconn : s.connected = false) :
    s.place_order o oid = (s, Except.error PaperError.brokerNotConnected) := by
  simp [PaperTrader.place_order, hconn]

/-- The full result state of a rejected (insufficient funds) BUY. -/
theorem place_order_buy_reject_state (s : PaperTrader) (sym : String)
    (otype : OrderType) (q : ℤ) (pr : ℚ) (oid : String)
    (hconn : s.connected = true)
    (hcost : (q : ℚ) * PaperTrader.fillPriceOf ⟨sym, .BUY, otype, q, pr⟩ > s.capital) :
    s.place_order ⟨sym, .BUY, otype, q, pr⟩ oid =
      ({ s with
          order_book := s.order_book ++
            [⟨oid, sym, .BUY, otype, q,
              PaperTrader.fillPriceOf ⟨sym, .BUY, otype, q, pr⟩, "REJECTED"⟩] },
       Except.error PaperError.insufficientFunds) := by
  simp only [PaperTrader.place_order, hconn, Bool.not_true, not_false_eq_true,
    ite_false, if_neg, PaperTrader.execute_buy, PaperTrader.record_order]
  simp only [if_pos hcost]
  simp

/-- The full result state of an accepted BUY creating a new position. -/
theorem place_order_buy_create_state (s : PaperTrader) (sym : String)
    (otype : OrderType) (q : ℤ) (pr : ℚ) (oid : String)
    (hconn : s.connected = true)
    (hlk : lookupPos s.positions sym = none)
    (hacc : (q : ℚ) * PaperTrader.fillPriceOf ⟨sym, .BUY, otype, q, pr⟩ ≤ s.capital) :
    s.place_order ⟨sym, .BUY, otype, q, pr⟩ oid =
      ({ s with
          capital := s.capital - (q : ℚ) * PaperTrader.fillPriceOf ⟨sym, .BUY, otype, q, pr⟩,
          positions := s.positions ++
            [(sym, ⟨q, PaperTrader.fillPriceOf ⟨sym, .BUY, otype, q, pr⟩,
              PaperTrader.fillPriceOf ⟨sym, .BUY, otype, q, pr⟩, 0⟩)],
          order_book := s.order_book ++
            [⟨oid, sym, .BUY, otype, q,
              PaperTrader.fillPriceOf ⟨sym, .BUY, otype, q, pr⟩, "FILLED"⟩] },
       Except.ok ⟨oid, "PAPER_FILLED"⟩) := by
  have hcost : ¬ ((q : ℚ) * PaperTrader.fillPriceOf ⟨sym, .BUY, otype, q, pr⟩ > s.capital) :=
    not_lt.mpr hacc
  simp only [PaperTrader.place_order, hconn, Bool.not_true, not_false_eq_true,
    ite_false, if_neg, PaperTrader.execute_buy, PaperTrader.record_order]
  simp only [if_neg hcost, hlk]
  simp

/-- The full result state of an accepted BUY merging into an existing
position by weighted-average cost. -/
theorem place_order_buy_merge_state (s : PaperTrader) (sym : String)
    (otype : OrderType) (q : ℤ) (pr : ℚ) (oid : String) (ex : PaperPosition)
    (hconn : s.connected = true)
    (hlk : lookupPos s.positions sym = some ex)
    (hacc : (q : ℚ) * PaperTrader.fillPriceOf ⟨sym, .BUY, otype, q, pr⟩ ≤ s.capital)
    (htq : 0 < ex.quantity + q) :
    s.place_order ⟨sym, .BUY, otype, q, pr⟩ oid =
      ({ s with
          capital := s.capital - (q : ℚ) * PaperTrader.fillPriceOf ⟨sym, .BUY, otype, q, pr⟩,
          positions := updatePos s.positions sym
            ⟨ex.quantity + q,
             ((ex.quantity : ℚ) * ex.average_price +
               (q : ℚ) * PaperTrader.fillPriceOf ⟨sym, .BUY, otype, q, pr⟩) /
               ((ex.quantity + q : ℤ) : ℚ),
             ex.ltp, ex.unrealized_pnl⟩,
          order_book := s.order_book ++
            [⟨oid, sym, .BUY, otype, q,
              PaperTrader.fillPriceOf ⟨sym, .BUY, otype, q, pr⟩, "FILLED"⟩] },
       Except.ok ⟨oid, "PAPER_FILLED"⟩) := by
  have hcost : ¬ ((q : ℚ) * PaperTrader.fillPriceOf ⟨sym, .BUY, otype, q, pr⟩ > s.capital) :=
    not_lt.mpr hacc
  simp only [PaperTrader.place_order, hconn, Bool.not_true, not_false_eq_true,
    ite_false, if_neg, PaperTrader.execute_buy, PaperTrader.record_order]
  simp only [if_neg hcost, hlk, if_pos htq]
  simp

/-- The full result state of a SELL of an unheld symbol. -/
theorem place_order_sell_nopos_state (s : PaperTrader) (sym : String)
    (otype : OrderType) (q : ℤ) (pr : ℚ) (oid : String)
    (hconn : s.connected = true)
    (hlk : lookupPos s.positions sym = none) :
    s.place_order ⟨sym, .SELL, otype, q, pr⟩ oid =
      ({ s with
          order_book := s.order_book ++
            [⟨oid, sym, .SELL, otype, q,
              PaperTrader.fillPriceOf ⟨sym, .SELL, otype, q, pr⟩, "REJECTED"⟩] },
       Except.error PaperError.noPositionToSell) := by
  simp only [PaperTrader.place_order, hconn, Bool.not_true, not_false_eq_true,
    ite_false, if_neg, PaperTrader.execute_sell, PaperTrader.record_order]
  simp only [hlk]
  simp

/-- The full result state of an over-sized SELL. -/
theorem place_order_sell_over_state (s : PaperTrader) (sym : String)
    (otype : OrderType) (q : ℤ) (pr : ℚ) (oid : String) (p : PaperPosition)
    (hconn : s.connected = true)
    (hlk : lookupPos s.positions sym = some p)
    (hover : q > p.quantity) :
    s.place_order ⟨sym, .SELL, otype, q, pr⟩ oid =
      ({ s with
          order_book := s.order_book ++
            [⟨oid, sym, .SELL, otype, q,
              PaperTrader.fillPriceOf ⟨sym, .SELL, otype, q, pr⟩, "REJECTED"⟩] },
       Except.error PaperError.insufficientQuantity) := by
  simp only [PaperTrader.place_order, hconn, Bool.not_true, not_false_eq_true,
    ite_false, if_neg, PaperTrader.execute_sell, PaperTrader.record_order]
  simp only [hlk, if_pos hover]
  simp

/-- The full result state of an accepted SELL: cash credited, position
decremented (deleted at zero), trade recorded, FILLED entry appended. -/
theorem place_order_sell_fill_state (s : PaperTrader) (sym : String)
    (otype : OrderType) (q : ℤ) (pr : ℚ) (oid : String) (p : PaperPosition)
    (hconn : s.connected = true)
    (hlk : lookupPos s.positions sym = some p)
    (hover : ¬ (q > p.quantity)) :
    s.place_order ⟨sym, .SELL, otype, q, pr⟩ oid =
      ({ s with
          capital := s.capital + (q : ℚ) * PaperTrader.fillPriceOf ⟨sym, .SELL, otype, q, pr⟩,
          positions :=
            if p.quantity - q = 0 then erasePos s.positions sym
            else updatePos s.positions sym
              ⟨p.quantity - q, p.average_price, p.ltp, p.unrealized_pnl⟩,
          trade_history := s.trade_history ++
            [⟨sym, .SELL, q, p.average_price,
              PaperTrader.fillPriceOf ⟨sym, .SELL, otype, q, pr⟩,
              (PaperTrader.fillPriceOf ⟨sym, .SELL, otype, q, pr⟩ - p.average_price) * (q : ℚ),
              (if p.average_price > 0 then
                (PaperTrader.fillPriceOf ⟨sym, .SELL, otype, q, pr⟩ - p.average_price) * (q : ℚ) /
                  (p.average_price * (q : ℚ)) * 100
               else 0)⟩],
          order_book := s.order_book ++
            [⟨oid, sym, .SELL, otype, q,
              PaperTrader.fillPriceOf ⟨sym, .SELL, otype, q, pr⟩, "FILLED"⟩] },
       Except.ok ⟨oid, "PAPER_FILLED"⟩) := by
  simp only [PaperTrader.place_order, hconn, Bool.not_true, not_false_eq_true,
    ite_false, if_neg, PaperTrader.execute_sell, PaperTrader.record_order]
  simp only [hlk, if_neg hover]
  rw [if_neg (by simp : ¬¬True)]
  split <;> simp

/-- One `place_order` call with positive quantity preserves the starting
capital, the positivity of all position quantities, and the ledger
identity portfolio_value − total_pnl. -/
theorem place_order_preserves (s : PaperTrader) (o : OrderRequest) (oid : String)
    (hq : 0 < o.quantity)
    (hpos : ∀ kv ∈ s.positions, 0 < kv.2.quantity) :
    (s.place_order o oid).1.starting_capital = s.starting_capital ∧
    (∀ kv ∈ (s.place_order o oid).1.positions, 0 < kv.2.quantity) ∧
    PaperTrader.portfolio_value (s.place_order o oid).1 -
      PaperTrader.total_pnl (s.place_order o oid).1 =
      PaperTrader.portfolio_value s - PaperTrader.total_pnl s := by
  rcases o with ⟨sym, side, otype, q, pr⟩
  have hq' : 0 < q := hq
  by_cases hconn : s.connected = true
  case neg =>
    have hc : s.connected = false := by
      cases hcb : s.connected
      · rfl
      · exact absurd hcb hconn
    rw [place_order_not_connected_state s _ oid hc]
    exact ⟨rfl, hpos, rfl⟩
  case pos =>
  cases side
  case BUY =>
    by_cases hcost : (q : ℚ) * PaperTrader.fillPriceOf ⟨sym, .BUY, otype, q, pr⟩ > s.capital
    · rw [place_order_buy_reject_state s sym otype q pr oid hconn hcost]
      exact ⟨rfl, hpos, rfl⟩
    · have hacc := not_lt.mp hcost
      rcases hlk : lookupPos s.positions sym with _ | ex
      · rw [place_order_buy_create_state s sym otype q pr oid hconn hlk hacc]
        refine ⟨rfl, ?_, ?_⟩
        · intro kv hkv
          rcases List.mem_append.mp hkv with h | h
          · exact hpos kv h
          · have hkv2 := List.mem_singleton.mp h
            subst hkv2
            simpa using hq'
        · simp only [PaperTrader.portfolio_value, PaperTrader.total_pnl]
          rw [positionsValue_append]
          push_cast
          ring
      · have hexq : 0 < ex.quantity := by
          simpa using hpos (sym, ex) (lookupPos_mem sym s.positions ex hlk)
        have htq : 0 < ex.quantity + q := by linarith
        rw [place_order_buy_merge_state s sym otype q pr oid ex hconn hlk hacc htq]
        refine ⟨rfl, ?_, ?_⟩
        · intro kv hkv
          rcases mem_updatePos sym _ s.positions kv hkv with h | h
          · exact hpos kv h
          · subst h
            simpa using htq
        · simp only [PaperTrader.portfolio_value, PaperTrader.total_pnl]
          rw [positionsValue_updatePos sym _ s.positions ex hlk]
          have hne : ((ex.quantity + q : ℤ) : ℚ) ≠ 0 := by
            exact_mod_cast htq.ne.symm
          field_simp
          ring
  case SELL =>
    rcases hlk : lookupPos s.positions sym with _ | p
    · rw [place_order_sell_nopos_state s sym otype q pr oid hconn hlk]
      exact ⟨rfl, hpos, rfl⟩
    · by_cases hover : q > p.quantity
      · rw [place_order_sell_over_state s sym otype q pr oid p hconn hlk hover]
        exact ⟨rfl, hpos, rfl⟩
      · rw [place_order_sell_fill_state s sym otype q pr oid p hconn hlk hover]
        by_cases hzero : p.quantity - q = 0
        · rw [if_pos hzero]
          refine ⟨rfl, ?_, ?_⟩
          · intro kv hkv
            exact hpos kv (mem_erasePos sym s.positions kv hkv)
          · simp only [PaperTrader.portfolio_value, PaperTrader.total_pnl,
              List.map_append, List.sum_append, List.map_cons, List.map_nil,
              List.sum_cons, List.sum_nil]
            rw [positionsValue_erasePos sym s.positions p hlk]
            have hpq : (p.quantity : ℚ) = (q : ℚ) := by
              exact_mod_cast (by omega : p.quantity = q)
            rw [hpq]
            ring
        · rw [if_neg hzero]
          refine ⟨rfl, ?_, ?_⟩
          · intro kv hkv
            rcases mem_updatePos sym _ s.positions kv hkv with h | h
            · exact hpos kv h
            · subst h
              simp only
              omega
          · simp only [PaperTrader.portfolio_value, PaperTrader.total_pnl,
              List.map_append, List.sum_append, List.map_cons, List.map_nil,
              List.sum_cons, List.sum_nil]
            rw [positionsValue_updatePos sym _ s.positions p hlk]
            push_cast
            ring

/-- One ledger operation (connect, place_order with positive quantity, or
cancel_order) preserves the starting capital, position-quantity
positivity, and the ledger identity portfolio_value − total_pnl. -/
theorem ledgerStep_preserves (s : PaperTrader) (op : LedgerOp)
    (hpos : ∀ kv ∈ s.positions, 0 < kv.2.quantity)
    (hq : ∀ o oid, op = LedgerOp.placeOp o oid → 0 < o.quantity) :
    (ledgerStep s op).starting_capital = s.starting_capital ∧
    (∀ kv ∈ (ledgerStep s op).positions, 0 < kv.2.quantity) ∧
    PaperTrader.portfolio_value (ledgerStep s op) -
      PaperTrader.total_pnl (ledgerStep s op) =
      PaperTrader.portfolio_value s - PaperTrader.total_pnl s := by
  cases op with
  | connectOp => exact ⟨rfl, hpos, rfl⟩
  | placeOp o oid => exact place_order_preserves s o oid (hq o oid rfl) hpos
  | cancelOp oid =>
      simp only [ledgerStep, PaperTrader.cancel_order]
      rcases hbook : PaperTrader.cancelInBook s.order_book oid with _ | book
      · exact ⟨rfl, hpos, rfl⟩
      · exact ⟨rfl, hpos, rfl⟩

/-- Claim C9: ledger conservation. For every sequence of connect,
place_order (with positive order quantities, per the data model) and
cancel_order operations from a fresh ledger, cash plus the cost basis of
all open positions equals the starting capital plus the sum of realized
pnl over the trade history — portfolio_value = starting_capital +
total_pnl after every operation. -/
theorem ledger_conservation :
    ∀ (c : ℚ) (ops : List LedgerOp),
      (∀ op ∈ ops, ∀ o oid, op = LedgerOp.placeOp o oid → 0 < o.quantity) →
      (runOps (freshPaperTrader c) ops).starting_capital = c ∧
      PaperTrader.portfolio_value (runOps (freshPaperTrader c) ops) =
        (runOps (freshPaperTrader c) ops).starting_capital +
          PaperTrader.total_pnl (runOps (freshPaperTrader c) ops) := by
  have main : ∀ (ops : List LedgerOp) (s : PaperTrader),
      (∀ op ∈ ops, ∀ o oid, op = LedgerOp.placeOp o oid → 0 < o.quantity) →
      (∀ kv ∈ s.positions, 0 < kv.2.quantity) →
      (runOps s ops).starting_capital = s.starting_capital ∧
      (∀ kv ∈ (runOps s ops).positions, 0 < kv.2.quantity) ∧
      PaperTrader.portfolio_value (runOps s ops) -
        PaperTrader.total_pnl (runOps s ops) =
        PaperTrader.portfolio_value s - PaperTrader.total_pnl s := by
    intro ops
    induction ops with
    | nil => intro s _ hpos; exact ⟨rfl, hpos, rfl⟩
    | cons op rest ih =>
        intro s hops hpos
        have hstep := ledgerStep_preserves s op hpos
          (fun o oid h => hops op (List.mem_cons_self _ _) o oid h)
        have hrest := ih (ledgerStep s op)
          (fun op' h' => hops op' (List.mem_cons_of_mem _ h')) hstep.2.1
        have hrun : runOps s (op :: rest) = runOps (ledgerStep s op) rest := rfl
        rw [hrun]
        exact ⟨hrest.1.trans hstep.1, hrest.2.1, hrest.2.2.trans hstep.2.2⟩
  intro c ops hops
  have h := main ops (freshPaperTrader c) hops (by simp [freshPaperTrader])
  have hfresh : PaperTrader.portfolio_value (freshPaperTrader c) -
      PaperTrader.total_pnl (freshPaperTrader c) = c := by
    simp [freshPaperTrader, PaperTrader.portfolio_value, PaperTrader.total_pnl,
      PaperTrader.positionsValue]
  refine ⟨h.1, ?_⟩
  rw [h.1]
  have hiden := h.2.2.trans hfresh
  have hsc : (freshPaperTrader c).starting_capital = c := rfl
  linarith [hiden, hsc]

/-- Witness for C9: the four-operation sequence connect, BUY 5 X at 2500,
SELL 3 X at 2700, cancel of an unknown id keeps portfolio_value equal to
starting capital plus realized pnl. -/
theorem ledger_conservation_witness :
    (runOps (freshPaperTrader 100000)
      [LedgerOp.connectOp,
       LedgerOp.placeOp ⟨"X", .BUY, .LIMIT, 5, 2500⟩ "PAPER-1",
       LedgerOp.placeOp ⟨"X", .SELL, .LIMIT, 3, 2700⟩ "PAPER-2",
       LedgerOp.cancelOp "PAPER-1"]).starting_capital = 100000 ∧
    PaperTrader.portfolio_value (runOps (freshPaperTrader 100000)
      [LedgerOp.connectOp,
       LedgerOp.placeOp ⟨"X", .BUY, .LIMIT, 5, 2500⟩ "PAPER-1",
       LedgerOp.placeOp ⟨"X", .SELL, .LIMIT, 3, 2700⟩ "PAPER-2",
       LedgerOp.cancelOp "PAPER-1"]) =
      (runOps (freshPaperTrader 100000)
        [LedgerOp.connectOp,
         LedgerOp.placeOp ⟨"X", .BUY, .LIMIT, 5, 2500⟩ "PAPER-1",
         LedgerOp.placeOp ⟨"X", .SELL, .LIMIT, 3, 2700⟩ "PAPER-2",
         LedgerOp.cancelOp "PAPER-1"]).starting_capital +
      PaperTrader.total_pnl (runOps (freshPaperTrader 100000)
        [LedgerOp.connectOp,
         LedgerOp.placeOp ⟨"X", .BUY, .LIMIT, 5, 2500⟩ "PAPER-1",
         LedgerOp.placeOp ⟨"X", .SELL, .LIMIT, 3, 2700⟩ "PAPER-2",
         LedgerOp.cancelOp "PAPER-1"]) := by
  apply ledger_conservation 100000
  intro op hop o oid heq
  rcases List.mem_cons.mp hop with rfl | h2
  · exact absurd heq (by simp)
  rcases List.mem_cons.mp h2 with rfl | h3
  · cases heq
    norm_num
  rcases List.mem_cons.mp h3 with rfl | h4
  · cases heq
    norm_num
  rcases List.mem_cons.mp h4 with rfl | h5
  · exact absurd heq (by simp)
  · simp at h5

end AlgoTrade
